import Mathlib

/-!
A shallow embedding of the process pipeline execution engine of fish.c
(a small interactive shell), together with theorems settling the spec
claims about it.  Every definition mirrors a function or code region of
src/fish.c; source line numbers are given in the doc comments.
-/

namespace Fish

/-- Capacity of the global endstatus buffer (fish.c line 13). -/
def ENDSTATUS_BUF_LEN : Nat := 4096

/-- Outcome of a collected child, as reported by waitpid without
WUNTRACED or WCONTINUED: exactly one of WIFEXITED and WIFSIGNALED holds
for a status returned for a terminated child, so the two C if-branches
of display_process_end (fish.c lines 26 and 32) are the two cases of
this sum. -/
inductive Stat
  | exited (code : Nat)
  | signaled (sig : Nat)
deriving DecidableEq, Repr

/-- The character printf uses for decimal digit d. -/
def digitChar (d : Nat) : Char := Char.ofNat (48 + d)

/-- Digit peeling with explicit fuel so that evaluation is structural;
fuel n is always enough since the argument shrinks at every step. -/
def decCharsAux (fuel n : Nat) : List Char :=
  match fuel with
  | 0 => []
  | fuel + 1 =>
    if n = 0 then [] else decCharsAux fuel (n / 10) ++ [digitChar (n % 10)]

/-- Decimal digit characters of n, most significant first (empty for 0):
the rendering performed by the %d and %i conversions of snprintf. -/
def decChars (n : Nat) : List Char := decCharsAux n n

/-- Decimal rendering of a natural number, as printed by %d / %i. -/
def decimal (n : Nat) : String :=
  if n = 0 then "0" else ⟨decChars n⟩

/-- The status line formatted by display_process_end (fish.c lines
27-30 for a normal exit, lines 33-36 for a signal death). -/
def statusMsg (stat : Stat) (pid : Nat) : String :=
  match stat with
  | .exited n => "PID " ++ decimal pid ++ " finished with exit status " ++ decimal n ++ "\n"
  | .signaled n => "PID " ++ decimal pid ++ " finished with signal " ++ decimal n ++ "\n"

/-- snprintf(endstatus + strlen(endstatus), ENDSTATUS_BUF_LEN -
strlen(endstatus), ...): appends msg to buf, writing at most size - 1
characters where size is the remaining capacity, so the result stays
NUL-terminated inside the fixed buffer (fish.c lines 27-29 and 33-35). -/
def bufAppend (buf msg : String) : String :=
  buf ++ ⟨msg.data.take (ENDSTATUS_BUF_LEN - buf.length - 1)⟩

/-- display_process_end (fish.c lines 24-38): formats the termination
status of pid and appends it, bounded, to the endstatus buffer. -/
def display_process_end (stat : Stat) (pid : Nat) (buf : String) : String :=
  bufAppend buf (statusMsg stat pid)

theorem decCharsAux_mem (fuel : Nat) :
    ∀ n, ∀ c ∈ decCharsAux fuel n, ∃ d, d < 10 ∧ c = digitChar d := by
  induction fuel with
  | zero => intro n c hc; exact absurd hc (List.not_mem_nil c)
  | succ fuel ih =>
    intro n c hc
    rw [decCharsAux] at hc
    split at hc
    · exact absurd hc (List.not_mem_nil c)
    · rcases List.mem_append.mp hc with h1 | h2
      · exact ih (n / 10) c h1
      · rcases List.mem_singleton.mp h2 with rfl
        exact ⟨n % 10, Nat.mod_lt _ (by omega), rfl⟩

theorem decChars_mem (n : Nat) : ∀ c ∈ decChars n, ∃ d, d < 10 ∧ c = digitChar d :=
  decCharsAux_mem n n

theorem digitChar_ne_newline (d : Nat) (hd : d < 10) : digitChar d ≠ '\n' := by
  interval_cases d <;> decide

theorem decimal_no_newline (n : Nat) : '\n' ∉ (decimal n).data := by
  unfold decimal
  split
  · decide
  · intro hmem
    rcases decChars_mem n '\n' hmem with ⟨d, hd, hc⟩
    exact digitChar_ne_newline d hd hc.symm

theorem statusMsg_newline_count (stat : Stat) (pid : Nat) :
    (statusMsg stat pid).data.count '\n' = 1 := by
  cases stat with
  | exited n =>
    show ((("PID " ++ decimal pid ++ " finished with exit status " ++ decimal n ++ "\n")).data).count '\n' = 1
    simp only [String.data_append, List.count_append]
    rw [List.count_eq_zero.mpr (decimal_no_newline pid),
        List.count_eq_zero.mpr (decimal_no_newline n)]
    decide
  | signaled n =>
    show ((("PID " ++ decimal pid ++ " finished with signal " ++ decimal n ++ "\n")).data).count '\n' = 1
    simp only [String.data_append, List.count_append]
    rw [List.count_eq_zero.mpr (decimal_no_newline pid),
        List.count_eq_zero.mpr (decimal_no_newline n)]
    decide

theorem str_length_data (s : String) : s.length = s.data.length := rfl

theorem str_length_mk (l : List Char) : (String.mk l).length = l.length := rfl

theorem bufAppend_full (buf msg : String)
    (h : buf.length + msg.length < ENDSTATUS_BUF_LEN) :
    bufAppend buf msg = buf ++ msg := by
  unfold bufAppend
  have hlen : msg.data.length ≤ ENDSTATUS_BUF_LEN - buf.length - 1 := by
    have hm : msg.length = msg.data.length := rfl
    omega
  rw [List.take_of_length_le hlen]

/-- C6: every observed child termination appends exactly one status
line, of the fixed form "PID p finished with exit status n" for a
normal exit and "PID p finished with signal n" for a signal death
(fish.c lines 24-38), provided the buffer has room for it (the
truncating case is the subject of the capacity invariant). -/
theorem status_line_format (stat : Stat) (pid : Nat) (buf : String)
    (hroom : buf.length + (statusMsg stat pid).length < ENDSTATUS_BUF_LEN) :
    display_process_end stat pid buf = buf ++ statusMsg stat pid
    ∧ (statusMsg stat pid).data.count '\n' = 1
    ∧ (∀ n, stat = Stat.exited n →
        statusMsg stat pid =
          "PID " ++ decimal pid ++ " finished with exit status " ++ decimal n ++ "\n")
    ∧ (∀ n, stat = Stat.signaled n →
        statusMsg stat pid =
          "PID " ++ decimal pid ++ " finished with signal " ++ decimal n ++ "\n") := by
  refine ⟨bufAppend_full buf (statusMsg stat pid) hroom,
          statusMsg_newline_count stat pid, ?_, ?_⟩
  · intro n hn; subst hn; rfl
  · intro n hn; subst hn; rfl

theorem status_line_format_witness :
    display_process_end (Stat.exited 0) 42 "" = "PID 42 finished with exit status 0\n"
    ∧ ("PID 42 finished with exit status 0\n").data.count '\n' = 1 := by
  have h := status_line_format (Stat.exited 0) 42 "" (by decide)
  refine ⟨?_, by decide⟩
  have hmsg : statusMsg (Stat.exited 0) 42 = "PID 42 finished with exit status 0\n" := by
    decide
  calc display_process_end (Stat.exited 0) 42 ""
      = "" ++ statusMsg (Stat.exited 0) 42 := h.1
    _ = "PID 42 finished with exit status 0\n" := by rw [hmsg]; decide

theorem bufAppend_bounded (buf msg : String)
    (h : buf.length < ENDSTATUS_BUF_LEN) :
    (bufAppend buf msg).length < ENDSTATUS_BUF_LEN := by
  unfold bufAppend
  simp only [String.length_append, str_length_mk, List.length_take]
  omega

theorem foldl_display_bounded (msgs : List (Stat × Nat)) :
    ∀ buf : String, buf.length < ENDSTATUS_BUF_LEN →
      (msgs.foldl (fun b sp => display_process_end sp.1 sp.2 b) buf).length
        < ENDSTATUS_BUF_LEN := by
  induction msgs with
  | nil => intro buf hb; exact hb
  | cons m rest ih =>
    intro buf hb
    exact ih (display_process_end m.1 m.2 buf) (bufAppend_bounded buf (statusMsg m.1 m.2) hb)

/-- C7: the endstatus buffer never overflows: each snprintf append is
bounded by the remaining capacity (silently truncating), so any
sequence of termination recordings starting from the empty buffer keeps
the accumulated text strictly inside the fixed capacity (fish.c lines
12-13, 27-29, 33-35, 203). -/
theorem endstatus_capacity_invariant :
    (∀ buf msg : String, buf.length < ENDSTATUS_BUF_LEN →
        (bufAppend buf msg).length < ENDSTATUS_BUF_LEN)
    ∧ (∀ msgs : List (Stat × Nat),
        (msgs.foldl (fun b sp => display_process_end sp.1 sp.2 b) "").length
          < ENDSTATUS_BUF_LEN) := by
  refine ⟨bufAppend_bounded, fun msgs => foldl_display_bounded msgs "" (by decide)⟩

theorem endstatus_capacity_invariant_witness :
    (bufAppend "" "x").length < ENDSTATUS_BUF_LEN :=
  endstatus_capacity_invariant.1 "" "x" (by decide)

/-- One return value of waitpid(-1, &stat, WNOHANG) as called by
sigchld_handler (fish.c line 52): -1 when there is no waitable child
left, 0 when children exist but none is immediately collectible, or a
positive pid with the collected status. -/
inductive WaitRes
  | noChildren
  | noneReady
  | child (pid : Nat) (stat : Stat)
deriving DecidableEq, Repr

/-- sigchld_handler (fish.c lines 48-55), run against a stream of
waitpid results (os k is the result of the k-th call) with explicit
fuel: the C loop repeats while the returned pid differs from -1,
recording each positive pid into the endstatus buffer.  The run yields
some final buffer if the loop exits within fuel iterations, and none if
it is still looping when the fuel runs out. -/
def sigchld_handler (fuel : Nat) (os : Nat → WaitRes) (k : Nat) (buf : String) :
    Option String :=
  match fuel with
  | 0 => none
  | fuel + 1 =>
    match os k with
    | .noChildren => some buf
    | .noneReady => sigchld_handler fuel os (k + 1) buf
    | .child pid stat => sigchld_handler fuel os (k + 1) (display_process_end stat pid buf)

/-- C1 is a code bug: the loop condition of sigchld_handler is
pid != -1, so a waitpid result of 0 (children exist, none collectible)
does not stop the loop.  Against an operating-system state in which
children exist but none has terminated, the handler keeps calling
waitpid forever and never returns control, for any amount of fuel. -/
theorem sigchld_handler_spins_when_none_collectible :
    ∀ fuel k buf, sigchld_handler fuel (fun _ => WaitRes.noneReady) k buf = none := by
  intro fuel
  induction fuel with
  | zero => intro k buf; rfl
  | succ fuel ih => intro k buf; exact ih (k + 1) buf

/-- One atomic step of the shared endstatus state, from the point of
view of the interleaving between main and the SIGCHLD handler.  The
state is (buffer contents, text flushed to stderr so far).  main's
per-iteration report (fish.c lines 227-230) is two separate steps: the
strlen-guarded fprintf, then the clearing loop; nothing masks SIGCHLD
between them, so a reap step can be scheduled at any point. -/
inductive ShEvent
  | flush
  | clearBuf
  | reap (stat : Stat) (pid : Nat)
deriving DecidableEq, Repr

/-- Effect of one event on (endstatus buffer, flushed output). -/
def shStep (s : String × String) (e : ShEvent) : String × String :=
  match e with
  | .flush => (s.1, if s.1.length > 0 then s.2 ++ s.1 else s.2)
  | .clearBuf => ("", s.2)
  | .reap stat pid => (display_process_end stat pid s.1, s.2)

/-- Running a schedule of events from an initial state. -/
def shRun (s : String × String) (evs : List ShEvent) : String × String :=
  evs.foldl shStep s

/-- C2 is a code bug: the read-then-clear of the endstatus buffer in
main (fprintf at fish.c line 228, clearing loop at line 229) is not
guarded against SIGCHLD, so a termination reaped between the flush and
the clear is erased without ever being flushed.  In the schedule below
PID 7 is reaped after the fprintf and before the clearing loop of the
same iteration: the final flushed output contains only the PID 5
message, the PID 7 message occurs nowhere in it, and the buffer is
empty, so the message is lost forever. -/
theorem status_buffer_race_loses_message :
    shRun ("", "")
        [ShEvent.reap (Stat.exited 0) 5, ShEvent.flush,
         ShEvent.reap (Stat.exited 1) 7, ShEvent.clearBuf,
         ShEvent.flush, ShEvent.clearBuf]
      = ("", statusMsg (Stat.exited 0) 5)
    ∧ ¬ (statusMsg (Stat.exited 1) 7).data <:+: (statusMsg (Stat.exited 0) 5).data := by
  constructor
  · decide
  · decide

/-- One pipeline stage: the argument vector of struct cmd (cmdline.h);
n_args is the length of args. -/
structure Cmd where
  args : List String
deriving DecidableEq, Repr

/-- A parsed command line: struct line (cmdline.h) as consumed by
execute_line and execute_command. -/
structure Line where
  cmds : List Cmd
  background : Bool
  file_input : Option String
  file_output : Option String
  file_output_append : Bool
deriving DecidableEq, Repr

/-- Number of commands of the line (the n_cmds field). -/
def Line.n_cmds (l : Line) : Nat := l.cmds.length

/-- The cd builtin test of execute_line (fish.c line 188): exactly two
arguments and the first one equal to "cd". -/
def isCdBuiltin (c : Cmd) : Bool :=
  c.args.length == 2 && c.args.headD "" == "cd"

/-- What ends up bound to a child's standard input. -/
inductive StdinSrc
  | pipe (fd : Int)
  | file (path : String)
  | devNull
  | inherit
deriving DecidableEq, Repr

/-- What ends up bound to a child's standard output. -/
inductive StdoutSrc
  | pipe (fd : Int)
  | file (path : String) (append : Bool)
  | inherit
deriving DecidableEq, Repr

/-- Standard-input resolution performed in the child by execute_command
(fish.c lines 88-103): a positive pipe descriptor wins; otherwise, when
this is the first command with an input file or the line is background,
the child opens file_input if set and "/dev/null" otherwise; a failed
open is reported by perror and the shell's stdin is inherited; in all
remaining cases stdin is inherited.  The second component lists the
diagnostic lines printed. -/
def resolveStdin (line : Line) (idx : Nat) (pipeIn : Int) (openOk : Bool) :
    StdinSrc × List String :=
  if 0 < pipeIn then (.pipe pipeIn, [])
  else if (idx == 0 && line.file_input.isSome) || line.background then
    if openOk then
      match line.file_input with
      | some p => (.file p, [])
      | none => (.devNull, [])
    else (.inherit, ["Input redirection failed"])
  else (.inherit, [])

/-- Standard-output resolution performed in the child by
execute_command (fish.c lines 105-120): a non-final stage writes to the
pipe feeding the next stage; the final stage opens file_output if set
(append or truncate per the flag), with a failed open reported by
perror and the shell's stdout inherited; otherwise stdout is inherited.
The two C if-blocks have mutually exclusive guards, so they are a
single case split here. -/
def resolveStdout (line : Line) (idx : Nat) (p1 : Int) (openOk : Bool) :
    StdoutSrc × List String :=
  if idx != line.n_cmds - 1 then (.pipe p1, [])
  else
    match line.file_output with
    | some p =>
      if openOk then (.file p line.file_output_append, [])
      else (.inherit, ["Output redirection failed"])
    | none => (.inherit, [])

/-- Observable actions of the executor, in program order.  A wait event
stands for the blocking waitpid on that stage's pid immediately
followed by display_process_end recording its status (fish.c lines
131-135).  A spawn event records the stream sources the child ends up
with at execvp. -/
inductive Event
  | spawn (idx : Nat) (stdinSrc : StdinSrc) (stdoutSrc : StdoutSrc)
  | wait (idx : Nat)
  | forkFail (idx : Nat)
  | cdCall (path : String)
deriving DecidableEq, Repr

/-- execute_command (fish.c lines 65-138) seen from the parent: a pipe
is created first when this is not the final stage (read end nextFd,
write end nextFd + 1); on fork failure perror runs and -1 is returned;
otherwise the child is spawned with the resolved stream sources, the
parent closes the pipe write end and the consumed pipeIn, and only a
final non-background stage is waited on.  Returns (events, returned
pipe read end or -1, next free descriptor). -/
def execute_command (line : Line) (idx : Nat) (pipeIn : Int) (nextFd : Int)
    (forkOk inOk outOk : Bool) : List Event × Int × Int :=
  let last := idx == line.n_cmds - 1
  let p1 : Int := if !last then nextFd + 1 else -1
  let nf : Int := if !last then nextFd + 2 else nextFd
  if !forkOk then ([Event.forkFail idx], -1, nf)
  else
    ([Event.spawn idx (resolveStdin line idx pipeIn inOk).1
        (resolveStdout line idx p1 outOk).1]
       ++ (if !line.background && last then [Event.wait idx] else []),
     if !last then nextFd else -1,
     nf)

/-- The loop body of execute_line (fish.c lines 184-199): a stage whose
command is the cd builtin runs cd in the shell itself and leaves
currPipe untouched; any other stage runs execute_command with the
current pipe and replaces currPipe by its return value.  forkOk, inOk
and outOk tell, per stage index, whether fork and the redirection opens
succeed. -/
def execute_line_go (line : Line) (forkOk inOk outOk : Nat → Bool) :
    List Cmd → Nat → Int → Int → List Event
  | [], _, _, _ => []
  | c :: rest, idx, currPipe, nextFd =>
    if isCdBuiltin c then
      Event.cdCall (c.args.getD 1 "")
        :: execute_line_go line forkOk inOk outOk rest (idx + 1) currPipe nextFd
    else
      let r := execute_command line idx currPipe nextFd (forkOk idx) (inOk idx) (outOk idx)
      r.1 ++ execute_line_go line forkOk inOk outOk rest (idx + 1) r.2.1 r.2.2

/-- execute_line (fish.c lines 184-199): currPipe starts at -1; pipe
descriptors are modelled as allocated from 3 upwards. -/
def execute_line (line : Line) (forkOk inOk outOk : Nat → Bool) : List Event :=
  execute_line_go line forkOk inOk outOk line.cmds 0 (-1) 3

/-- Selects the blocking-wait events. -/
def isWaitEv : Event → Bool
  | .wait _ => true
  | _ => false

/-- The blocking-wait events of a trace. -/
def waitEvents (evs : List Event) : List Event := evs.filter isWaitEv

/-- The waits execute_line performs on a suffix of the command list
starting at stage idx: one wait per non-builtin final stage of a
non-background line whose fork succeeded. -/
def expectedWaits (line : Line) (forkOk : Nat → Bool) : List Cmd → Nat → List Event
  | [], _ => []
  | c :: rest, idx =>
    (if !line.background && (idx == line.n_cmds - 1) && !isCdBuiltin c && forkOk idx
     then [Event.wait idx] else [])
      ++ expectedWaits line forkOk rest (idx + 1)

theorem waitEvents_go (line : Line) (forkOk inOk outOk : Nat → Bool) :
    ∀ (cmds : List Cmd) (idx : Nat) (cp nf : Int),
      waitEvents (execute_line_go line forkOk inOk outOk cmds idx cp nf)
        = expectedWaits line forkOk cmds idx := by
  intro cmds
  induction cmds with
  | nil => intro idx cp nf; rfl
  | cons c rest ih =>
    intro idx cp nf
    simp only [execute_line_go, expectedWaits]
    by_cases hb : isCdBuiltin c
    · simp only [hb, if_true, Bool.not_true, Bool.and_false, Bool.false_and,
                 if_false]
      simp only [waitEvents, List.filter_cons, isWaitEv, List.nil_append,
                 Bool.false_eq_true, if_false]
      exact ih (idx + 1) cp nf
    · simp only [Bool.not_eq_true] at hb
      cases hf : forkOk idx
      · simp only [hb, Bool.false_eq_true, if_false, execute_command,
                   Bool.not_false, Bool.and_false, if_true]
        simp [waitEvents, isWaitEv]
        exact ih (idx + 1) _ _
      · by_cases hw : (!line.background && (idx == line.n_cmds - 1)) = true
        · simp only [hb, hf, Bool.false_eq_true, if_false, execute_command]
          simp [waitEvents, isWaitEv, hw, Bool.and_assoc]
          exact ih (idx + 1) _ _
        · simp only [Bool.not_eq_true] at hw
          simp only [hb, hf, Bool.false_eq_true, if_false, execute_command]
          simp [waitEvents, isWaitEv, hw, Bool.and_assoc]
          exact ih (idx + 1) _ _

theorem expectedWaits_background (line : Line) (forkOk : Nat → Bool)
    (hbg : line.background = true) :
    ∀ (cmds : List Cmd) (idx : Nat), expectedWaits line forkOk cmds idx = [] := by
  intro cmds
  induction cmds with
  | nil => intro idx; rfl
  | cons c rest ih =>
    intro idx
    simp [expectedWaits, hbg, ih]

theorem expectedWaits_foreground (line : Line) (forkOk : Nat → Bool) (c : Cmd)
    (hbg : line.background = false) (hc : isCdBuiltin c = false)
    (hf : forkOk (line.n_cmds - 1) = true) :
    ∀ (pre : List Cmd) (idx : Nat), idx + pre.length = line.n_cmds - 1 →
      expectedWaits line forkOk (pre ++ [c]) idx = [Event.wait (line.n_cmds - 1)] := by
  intro pre
  induction pre with
  | nil =>
    intro idx hidx
    simp only [List.nil_append, List.length_nil, Nat.add_zero] at hidx
    subst hidx
    simp [expectedWaits, hbg, hc, hf]
  | cons c0 pre ih =>
    intro idx hidx
    simp only [List.length_cons] at hidx
    have hne : (idx == line.n_cmds - 1) = false := by
      simp only [beq_eq_false_iff_ne, ne_eq]
      omega
    simp only [List.cons_append, expectedWaits, hne, Bool.and_false, Bool.false_and,
               if_false, List.nil_append]
    exact ih (idx + 1) (by omega)

/-- C5 amended: a background line is never waited on; a non-background
line whose final command is not the cd builtin and whose final fork
succeeds gets exactly one blocking wait, on the final stage, whose
outcome is recorded into the endstatus buffer immediately (fish.c
lines 131-135).  A line whose final command is the cd builtin spawns
no process for it and performs no wait (see the counterexample). -/
theorem foreground_wait_exactly_final_stage (line : Line)
    (forkOk inOk outOk : Nat → Bool) (pre : List Cmd) (c : Cmd)
    (hcmds : line.cmds = pre ++ [c]) :
    (line.background = true →
      waitEvents (execute_line line forkOk inOk outOk) = [])
    ∧ (line.background = false → isCdBuiltin c = false →
        forkOk (line.n_cmds - 1) = true →
        waitEvents (execute_line line forkOk inOk outOk)
          = [Event.wait (line.n_cmds - 1)]) := by
  constructor
  · intro hbg
    rw [execute_line, waitEvents_go, hcmds]
    exact expectedWaits_background line forkOk hbg (pre ++ [c]) 0
  · intro hbg hc hf
    rw [execute_line, waitEvents_go, hcmds]
    refine expectedWaits_foreground line forkOk c hbg hc hf pre 0 ?_
    have : line.n_cmds = pre.length + 1 := by
      rw [Line.n_cmds, hcmds]; simp
    omega

theorem foreground_wait_exactly_final_stage_witness :
    waitEvents (execute_line ⟨[⟨["ls"]⟩, ⟨["wc"]⟩], false, none, none, false⟩
        (fun _ => true) (fun _ => true) (fun _ => true))
      = [Event.wait 1] := by
  have h := foreground_wait_exactly_final_stage
      ⟨[⟨["ls"]⟩, ⟨["wc"]⟩], false, none, none, false⟩
      (fun _ => true) (fun _ => true) (fun _ => true) [⟨["ls"]⟩] ⟨["wc"]⟩ rfl
  exact h.2 rfl (by decide) rfl

/-- C5 counterexample: a non-background line consisting of the single
command "cd /tmp" is executed with no blocking wait at all (the claim
demands exactly one wait for every non-background line). -/
theorem builtin_final_line_has_no_wait :
    (Line.mk [⟨["cd", "/tmp"]⟩] false none none false).background = false
    ∧ waitEvents (execute_line (Line.mk [⟨["cd", "/tmp"]⟩] false none none false)
        (fun _ => true) (fun _ => true) (fun _ => true)) = [] := by
  exact ⟨rfl, by decide⟩

/-- C3 counterexample: the background line "cd /tmp | cat &" binds the
null input source to stage 1, which is not the first stage: the cd
builtin consumes stage 0 without producing a pipe, so stage 1 reaches
execute_command with pipeIn = -1, and the condition at fish.c line 93
triggers on line->background alone, with no first-stage restriction. -/
theorem null_stdin_bound_at_non_first_stage :
    execute_line (Line.mk [⟨["cd", "/tmp"]⟩, ⟨["cat"]⟩] true none none false)
        (fun _ => true) (fun _ => true) (fun _ => true)
      = [Event.cdCall "/tmp", Event.spawn 1 StdinSrc.devNull StdoutSrc.inherit]
    ∧ (1 : Nat) ≠ 0 := by
  exact ⟨by decide, by decide⟩

/-- C3 amended: for a background line, the null input source is bound
exactly when the stage has no pipe predecessor and the line has no
explicit input path, regardless of whether the stage is the first one
(a non-first stage is in this situation precisely when every earlier
stage was a cd builtin).  Reading /dev/null immediately yields
end-of-stream by operating-system semantics. -/
theorem null_stdin_iff_no_pipe_and_no_input_file (line : Line) (idx : Nat)
    (pipeIn : Int) (hbg : line.background = true) :
    (resolveStdin line idx pipeIn true).1 = StdinSrc.devNull
      ↔ (¬ 0 < pipeIn ∧ line.file_input = none) := by
  unfold resolveStdin
  by_cases hp : (0 : Int) < pipeIn
  · simp [hp]
  · cases hfi : line.file_input with
    | none => simp [hp, hbg, hfi]
    | some p => simp [hp, hbg, hfi]

theorem null_stdin_iff_witness :
    (resolveStdin (Line.mk [⟨["cd", "/tmp"]⟩, ⟨["cat"]⟩] true none none false)
        1 (-1) true).1 = StdinSrc.devNull :=
  (null_stdin_iff_no_pipe_and_no_input_file
      (Line.mk [⟨["cd", "/tmp"]⟩, ⟨["cat"]⟩] true none none false)
      1 (-1) rfl).mpr ⟨by decide, rfl⟩

/-- C9: whenever a requested redirection file cannot be opened the
failure is reported by exactly one perror diagnostic line and the
affected stream falls back to inheriting the shell's stream - for a
failed input open at any stage where the input open is attempted
(fish.c line 98) and for a failed output open at any final stage with
an output path (fish.c line 115) - and the stage's process still
starts: with the fork succeeding, the first action of execute_command
is the spawn whatever the open outcomes (the child proceeds to execvp,
fish.c line 123; the pipeline is not aborted). -/
theorem redirection_failure_fallback (line : Line) (idx : Nat)
    (pipeIn nextFd : Int) (inOk outOk : Bool) :
    (¬ 0 < pipeIn →
      ((idx == 0 && line.file_input.isSome) || line.background) = true →
      resolveStdin line idx pipeIn false
        = (StdinSrc.inherit, ["Input redirection failed"]))
    ∧ ((idx == line.n_cmds - 1) = true → line.file_output.isSome = true →
        resolveStdout line idx (-1) false
          = (StdoutSrc.inherit, ["Output redirection failed"]))
    ∧ (execute_command line idx pipeIn nextFd true inOk outOk).1.head?
        = some (Event.spawn idx (resolveStdin line idx pipeIn inOk).1
            (resolveStdout line idx
              (if !(idx == line.n_cmds - 1) then nextFd + 1 else -1) outOk).1) := by
  refine ⟨?_, ?_, ?_⟩
  · intro hp hin
    simp [resolveStdin, hp, hin]
  · intro hlast hout
    rcases Option.isSome_iff_exists.mp hout with ⟨p, hfo⟩
    have hle : idx = line.n_cmds - 1 := by simpa using hlast
    simp [resolveStdout, hle, hfo]
  · rfl

theorem redirection_failure_fallback_witness :
    resolveStdin (Line.mk [⟨["cat"]⟩, ⟨["wc"]⟩] false (some "nofile") none false)
        0 (-1) false
      = (StdinSrc.inherit, ["Input redirection failed"])
    ∧ resolveStdout (Line.mk [⟨["echo", "hi"]⟩] false none (some "x") false)
        0 (-1) false
      = (StdoutSrc.inherit, ["Output redirection failed"])
    ∧ (execute_command (Line.mk [⟨["echo", "hi"]⟩] false none (some "x") false)
        0 (-1) 3 true false false).1.head?
      = some (Event.spawn 0 StdinSrc.inherit StdoutSrc.inherit) := by
  have hA := redirection_failure_fallback
      (Line.mk [⟨["cat"]⟩, ⟨["wc"]⟩] false (some "nofile") none false) 0 (-1) 3 false true
  have hB := redirection_failure_fallback
      (Line.mk [⟨["echo", "hi"]⟩] false none (some "x") false) 0 (-1) 3 false false
  refine ⟨hA.1 (by omega) (by decide), hB.2.1 (by decide) (by decide), ?_⟩
  rw [hB.2.2]
  decide

/-- A maximal run of cd builtin stages: execute_line performs the cd
calls and hands the same currPipe and next descriptor on to whatever
command follows the run, with the stage index advanced past it (fish.c
lines 188-190 never touch currPipe). -/
theorem execute_line_go_builtins (line : Line) (forkOk inOk outOk : Nat → Bool) :
    ∀ (mid : List Cmd), (∀ c ∈ mid, isCdBuiltin c = true) →
      ∀ (tail : List Cmd) (idx : Nat) (cp nf : Int),
        execute_line_go line forkOk inOk outOk (mid ++ tail) idx cp nf
          = (mid.map fun c => Event.cdCall (c.args.getD 1 ""))
            ++ execute_line_go line forkOk inOk outOk tail (idx + mid.length) cp nf := by
  intro mid
  induction mid with
  | nil => intro _ tail idx cp nf; simp
  | cons c mid ih =>
    intro hmid tail idx cp nf
    have hc : isCdBuiltin c = true := hmid c (List.mem_cons_self c mid)
    have hidx : idx + 1 + mid.length = idx + (mid.length + 1) := by omega
    simp only [List.cons_append, execute_line_go, hc, if_true, List.map_cons,
               List.length_cons, List.append_eq]
    rw [ih (fun d hd => hmid d (List.mem_cons_of_mem c hd)), hidx]

/-- C10: a run of cd builtins between two external commands leaves the
threaded pipe descriptor untouched: for every line whose command list
decomposes as pre ++ e1 :: mid ++ e2 :: post with e1 and e2 external
and every command of mid the cd builtin, and for every executor state
(cp, nf) in which stage e1 is reached, stage e1 creates the pipe with
read end nf and write end nf + 1 and is spawned writing to nf + 1, the
builtins contribute exactly their cd calls - none reads from or closes
the pending read end, and currPipe is unchanged across them (fish.c
lines 184-199) - and the next external stage e2 is spawned with its
standard input bound to exactly nf, the read end produced by e1, the
most recent external stage before the builtins. -/
theorem builtin_preserves_pipe_thread (line : Line)
    (forkOk inOk outOk : Nat → Bool) (pre mid post : List Cmd) (e1 e2 : Cmd)
    (hcmds : line.cmds = pre ++ e1 :: (mid ++ e2 :: post))
    (he1 : isCdBuiltin e1 = false) (he2 : isCdBuiltin e2 = false)
    (hmid : ∀ c ∈ mid, isCdBuiltin c = true)
    (hf1 : forkOk pre.length = true)
    (hf2 : forkOk (pre.length + 1 + mid.length) = true)
    (cp nf : Int) (hnf : 0 < nf) :
    execute_line_go line forkOk inOk outOk (e1 :: (mid ++ e2 :: post)) pre.length cp nf
      = Event.spawn pre.length (resolveStdin line pre.length cp (inOk pre.length)).1
          (StdoutSrc.pipe (nf + 1))
        :: ((mid.map fun c => Event.cdCall (c.args.getD 1 ""))
            ++ execute_line_go line forkOk inOk outOk (e2 :: post)
                (pre.length + 1 + mid.length) nf (nf + 2))
    ∧ (execute_line_go line forkOk inOk outOk (e2 :: post)
          (pre.length + 1 + mid.length) nf (nf + 2)).head?
        = some (Event.spawn (pre.length + 1 + mid.length) (StdinSrc.pipe nf)
            (resolveStdout line (pre.length + 1 + mid.length)
              (if !((pre.length + 1 + mid.length) == line.n_cmds - 1)
               then nf + 2 + 1 else -1)
              (outOk (pre.length + 1 + mid.length))).1) := by
  have hn : line.n_cmds = pre.length + mid.length + post.length + 2 := by
    rw [Line.n_cmds, hcmds]
    simp only [List.length_append, List.length_cons]
    omega
  have hlast1 : (pre.length == line.n_cmds - 1) = false := by
    simp only [beq_eq_false_iff_ne, ne_eq]
    omega
  have hpipe1 : (resolveStdout line pre.length (nf + 1) (outOk pre.length)).1
      = StdoutSrc.pipe (nf + 1) := by
    simp [resolveStdout, bne, hlast1]
  constructor
  · have hstep1 : execute_line_go line forkOk inOk outOk
        (e1 :: (mid ++ e2 :: post)) pre.length cp nf
        = Event.spawn pre.length (resolveStdin line pre.length cp (inOk pre.length)).1
            (StdoutSrc.pipe (nf + 1))
          :: execute_line_go line forkOk inOk outOk (mid ++ e2 :: post)
              (pre.length + 1) nf (nf + 2) := by
      simp only [execute_line_go, he1, Bool.false_eq_true, if_false, execute_command,
                 hlast1, hf1, Bool.not_false, Bool.not_true, if_true, Bool.and_false,
                 List.singleton_append, List.append_nil, hpipe1]
    rw [hstep1, execute_line_go_builtins line forkOk inOk outOk mid hmid (e2 :: post)
          (pre.length + 1) nf (nf + 2)]
  · have hpin2 : (resolveStdin line (pre.length + 1 + mid.length) nf
        (inOk (pre.length + 1 + mid.length))).1 = StdinSrc.pipe nf := by
      simp [resolveStdin, hnf]
    simp only [execute_line_go, he2, Bool.false_eq_true, if_false, execute_command,
               hf2, Bool.not_true, if_true, List.cons_append, List.singleton_append,
               List.head?_cons, hpin2]

theorem builtin_preserves_pipe_thread_witness :
    execute_line_go
        (Line.mk [⟨["ls"]⟩, ⟨["sort"]⟩, ⟨["cd", "/"]⟩, ⟨["wc"]⟩] false none none false)
        (fun _ => true) (fun _ => true) (fun _ => true)
        [⟨["sort"]⟩, ⟨["cd", "/"]⟩, ⟨["wc"]⟩] 1 3 5
      = [Event.spawn 1 (StdinSrc.pipe 3) (StdoutSrc.pipe 6),
         Event.cdCall "/",
         Event.spawn 3 (StdinSrc.pipe 5) StdoutSrc.inherit,
         Event.wait 3] := by
  have h := builtin_preserves_pipe_thread
      (Line.mk [⟨["ls"]⟩, ⟨["sort"]⟩, ⟨["cd", "/"]⟩, ⟨["wc"]⟩] false none none false)
      (fun _ => true) (fun _ => true) (fun _ => true)
      [⟨["ls"]⟩] [⟨["cd", "/"]⟩] [] ⟨["sort"]⟩ ⟨["wc"]⟩
      rfl (by decide) (by decide) (by decide) rfl rfl 3 5 (by omega)
  exact h.1.trans (by decide)

/-- The flags and optional mode argument of an open system call. -/
structure OpenCall where
  path : String
  wronly : Bool
  creat : Bool
  append : Bool
  trunc : Bool
  mode : Option Nat
deriving DecidableEq, Repr

/-- The open call issued for the final stage's output redirection
(fish.c lines 111-114): O_WRONLY, O_CREAT, and O_APPEND or O_TRUNC per
the append flag.  The C call passes only two arguments: although
O_CREAT is set, no mode argument is supplied, recorded as mode = none;
the permission bits of a created file are therefore indeterminate. -/
def outputOpenCall (line : Line) : Option OpenCall :=
  line.file_output.map fun p =>
    ⟨p, true, true, line.file_output_append, !line.file_output_append, none⟩

/-- Content of the redirected file after one run whose final stage
writes w, given the prior content (none = absent): O_CREAT creates the
file, O_APPEND writes after the existing content, O_TRUNC discards
it. -/
def fileAfterRun (old : Option String) (append : Bool) (w : String) : String :=
  match old with
  | none => w
  | some c => if append then c ++ w else w

/-- Effect on the redirected file of running the line once, its final
stage writing w; a line without an output path leaves the file as it
was. -/
def runLineOutput (line : Line) (old : Option String) (w : String) : Option String :=
  match line.file_output with
  | some _ => some (fileAfterRun old line.file_output_append w)
  | none => old

/-- C8: the output path of a final stage is opened write-only with
O_CREAT, appending when the append flag is set and truncating when it
is clear, so two append-flagged runs concatenate and two
truncate-flagged runs keep only the last run's output; but the open
call carries no mode argument (mode = none) even though O_CREAT is set
(fish.c lines 111-114), so a created file's permission bits are
indeterminate rather than owner-writable-per-umask as the claim
states. -/
theorem output_open_flags_and_missing_mode (line : Line) (p : String)
    (h : line.file_output = some p) (w1 w2 : String) :
    outputOpenCall line
        = some ⟨p, true, true, line.file_output_append, !line.file_output_append, none⟩
    ∧ (line.file_output_append = true →
        runLineOutput line (runLineOutput line none w1) w2 = some (w1 ++ w2))
    ∧ (line.file_output_append = false →
        runLineOutput line (runLineOutput line none w1) w2 = some w2) := by
  refine ⟨by simp [outputOpenCall, h], ?_, ?_⟩
  · intro ha; simp [runLineOutput, h, fileAfterRun, ha]
  · intro ha; simp [runLineOutput, h, fileAfterRun, ha]

theorem output_open_flags_and_missing_mode_witness :
    outputOpenCall (Line.mk [⟨["echo", "hi"]⟩] false none (some "out.txt") false)
      = some ⟨"out.txt", true, true, false, true, none⟩ :=
  (output_open_flags_and_missing_mode
      (Line.mk [⟨["echo", "hi"]⟩] false none (some "out.txt") false)
      "out.txt" rfl "a" "b").1

/-- A file-descriptor-level action taken by execute_command.  dup2c
duplicates src onto dst (the previous dst object, if any, is closed and
dst stays an open descriptor), closec closes a descriptor, openc
records a successful open returning a fresh descriptor. -/
inductive FdOp
  | dup2c (src dst : Int)
  | closec (fd : Int)
  | openc (fd : Int)
deriving DecidableEq, Repr

/-- Effect of one action on the set of open descriptors. -/
def applyFdOp (s : List Int) : FdOp → List Int
  | .dup2c _ dst => dst :: s.filter (fun x => x != dst)
  | .closec fd => s.filter (fun x => x != fd)
  | .openc fd => fd :: s

/-- The descriptor actions of the child branch of execute_command, in
program order (fish.c lines 78-123): input redirection (lines 88-103),
pipe output for a non-final stage (lines 106-109), file output for a
final stage (lines 110-120).  p0 and p1 are the read and write ends of
the pipe created at line 68 for a non-final stage; inFd and outFd are
the descriptors returned by the open calls when they succeed. -/
def childFdOps (line : Line) (idx : Nat) (pipeIn p1 : Int)
    (inFd : Int) (inOk : Bool) (outFd : Int) (outOk : Bool) : List FdOp :=
  (if 0 < pipeIn then [FdOp.dup2c pipeIn 0, FdOp.closec pipeIn]
   else if (idx == 0 && line.file_input.isSome) || line.background then
     if inOk then [FdOp.openc inFd, FdOp.dup2c inFd 0, FdOp.closec inFd] else []
   else [])
  ++ (if idx != line.n_cmds - 1 then [FdOp.dup2c p1 1, FdOp.closec p1] else [])
  ++ (if (idx == line.n_cmds - 1) && line.file_output.isSome then
        if outOk then [FdOp.openc outFd, FdOp.dup2c outFd 1, FdOp.closec outFd]
        else []
      else [])

/-- Descriptors open when the child is created: the standard three, the
pipe read end inherited from the previous stage if any, and both ends
of the pipe created for a non-final stage just before the fork. -/
def childInitFds (pipeIn p0 p1 : Int) (notLast : Bool) : List Int :=
  [0, 1, 2] ++ (if 0 < pipeIn then [pipeIn] else [])
    ++ (if notLast then [p0, p1] else [])

/-- The open descriptors of the child at the execvp call. -/
def childFdsAtExec (line : Line) (idx : Nat) (pipeIn p0 p1 : Int)
    (inFd : Int) (inOk : Bool) (outFd : Int) (outOk : Bool) : List Int :=
  (childFdOps line idx pipeIn p1 inFd inOk outFd outOk).foldl applyFdOp
    (childInitFds pipeIn p0 p1 (idx != line.n_cmds - 1))

/-- The descriptor actions of the parent after the fork (fish.c lines
128-129): close the pipe write end of a non-final stage and the
consumed pipe read end. -/
def parentFdOps (line : Line) (idx : Nat) (pipeIn p1 : Int) : List FdOp :=
  (if idx != line.n_cmds - 1 then [FdOp.closec p1] else [])
    ++ (if 0 < pipeIn then [FdOp.closec pipeIn] else [])

/-- The open descriptors of the parent once execute_command returns. -/
def parentFdsAfter (line : Line) (idx : Nat) (pipeIn p0 p1 : Int) : List Int :=
  (parentFdOps line idx pipeIn p1).foldl applyFdOp
    (childInitFds pipeIn p0 p1 (idx != line.n_cmds - 1))

/-- C4 counterexample: for the two-command line "ls | wc", the child
spawned for stage 0 still holds descriptor 3 - the read end of the very
pipe whose write end it writes to - when it reaches execvp: the child
branch of execute_command never closes pipes[0], contradicting the
claim that each child closes every pipe descriptor it does not use. -/
theorem child_keeps_own_pipe_read_end :
    (3 : Int) ∈ childFdsAtExec (Line.mk [⟨["ls"]⟩, ⟨["wc"]⟩] false none none false)
      0 (-1) 3 4 5 true 6 true := by
  decide

/-- C4 amended: at every stage, the parent closes the consumed pipe
read end after the fork and the child closes the inherited read end it
duplicated onto its standard input; at every non-final stage the
parent and the child also close the pipe write end after its
duplication onto the child's standard output - but the child does NOT
close the read end of the pipe whose write end it holds: that
descriptor is still open at execvp.  pipeIn is either a real
descriptor above 2 or the -1 sentinel; the pipe ends and any
redirection descriptor are pairwise distinct and above the standard
streams, as the operating system guarantees for freshly returned
descriptors. -/
theorem pipe_fd_closure_amended (line : Line) (idx : Nat)
    (pipeIn p0 p1 inFd outFd : Int) (inOk outOk : Bool)
    (hpig : 2 < pipeIn ∨ pipeIn = -1)
    (hp0 : 2 < p0) (hp1 : 2 < p1) (hne : p0 ≠ p1)
    (hpi0 : pipeIn ≠ p0) (hpi1 : pipeIn ≠ p1)
    (hif0 : inFd ≠ p0) (hofpi : outFd ≠ pipeIn) :
    (0 < pipeIn →
      pipeIn ∉ childFdsAtExec line idx pipeIn p0 p1 inFd inOk outFd outOk
      ∧ pipeIn ∉ parentFdsAfter line idx pipeIn p0 p1)
    ∧ ((idx == line.n_cmds - 1) = false →
        p1 ∉ childFdsAtExec line idx pipeIn p0 p1 inFd inOk outFd outOk
        ∧ p0 ∈ childFdsAtExec line idx pipeIn p0 p1 inFd inOk outFd outOk
        ∧ p1 ∉ parentFdsAfter line idx pipeIn p0 p1
        ∧ p0 ∈ parentFdsAfter line idx pipeIn p0 p1) := by
  by_cases hl : (idx == line.n_cmds - 1) = true
  · refine ⟨?_, fun hx => absurd hx (by simp [hl])⟩
    intro hpos
    have h3 : 2 < pipeIn := by
      rcases hpig with h | h
      · exact h
      · omega
    have hbne2 : (idx != line.n_cmds - 1) = false := by simp [bne, hl]
    unfold childFdsAtExec parentFdsAfter childFdOps parentFdOps childInitFds
    rw [hbne2, hl]
    cases hfo : line.file_output with
    | none =>
      refine ⟨?_, ?_⟩ <;>
        simp only [hpos, if_true, if_pos hpos, hfo, Option.isSome_none,
                   Bool.true_and, Bool.false_eq_true, if_false] <;>
        simp only [List.foldl, applyFdOp, List.append_nil, List.nil_append,
                   List.cons_append, List.singleton_append] <;>
        simp only [List.mem_cons, List.mem_filter, List.mem_append,
                   List.mem_singleton, List.not_mem_nil, bne_iff_ne, ne_eq,
                   decide_eq_true_eq, Bool.and_eq_true, not_or,
                   not_true, not_false_iff, and_true, true_and, and_false,
                   false_and, or_true, true_or, or_false, false_or, not_and,
                   if_true, if_false, eq_self_iff_true]
    | some p =>
      cases outOk
      · refine ⟨?_, ?_⟩ <;>
          simp only [hpos, if_true, if_pos hpos, hfo, Option.isSome_some,
                     Bool.true_and, Bool.false_eq_true, if_false] <;>
          simp only [List.foldl, applyFdOp, List.append_nil, List.nil_append,
                   List.cons_append, List.singleton_append] <;>
          simp only [List.mem_cons, List.mem_filter, List.mem_append,
                   List.mem_singleton, List.not_mem_nil, bne_iff_ne, ne_eq,
                   decide_eq_true_eq, Bool.and_eq_true, not_or,
                   not_true, not_false_iff, and_true, true_and, and_false,
                   false_and, or_true, true_or, or_false, false_or, not_and,
                   if_true, if_false, eq_self_iff_true]
      · refine ⟨?_, ?_⟩ <;>
          simp only [hpos, if_true, if_pos hpos, hfo, Option.isSome_some,
                     Bool.true_and, Bool.false_eq_true, if_false] <;>
          simp only [List.foldl, applyFdOp, List.append_nil, List.nil_append,
                   List.cons_append, List.singleton_append] <;>
          simp only [List.mem_cons, List.mem_filter, List.mem_append,
                   List.mem_singleton, List.not_mem_nil, bne_iff_ne, ne_eq,
                   decide_eq_true_eq, Bool.and_eq_true, not_or,
                   not_true, not_false_iff, and_true, true_and, and_false,
                   false_and, or_true, true_or, or_false, false_or, not_and,
                   if_true, if_false, eq_self_iff_true] <;>
          omega
  · have hnl : (idx == line.n_cmds - 1) = false := by
      cases hbb : (idx == line.n_cmds - 1)
      · rfl
      · exact absurd hbb hl
    have hbne : (idx != line.n_cmds - 1) = true := by simp [bne, hnl]
    have hout : ((idx == line.n_cmds - 1) && line.file_output.isSome) = false := by
      simp [hnl]
    unfold childFdsAtExec parentFdsAfter childFdOps parentFdOps childInitFds
    rw [hbne, hout]
    rcases hpig with h3 | hneg
    · have hpos : (0 : Int) < pipeIn := by omega
      simp only [hpos, if_true, if_pos hpos]
      refine ⟨fun hpp => ⟨?_, ?_⟩, fun hx => ⟨?_, ?_, ?_, ?_⟩⟩ <;>
        simp only [List.foldl, applyFdOp, List.append_nil, List.nil_append,
                   List.cons_append, List.singleton_append, if_true] <;>
        simp only [List.mem_cons, List.mem_filter, List.mem_append,
                   List.mem_singleton, List.not_mem_nil, bne_iff_ne, ne_eq,
                   decide_eq_true_eq, Bool.and_eq_true, not_or,
                   not_true, not_false_iff, and_true, true_and, and_false,
                   false_and, or_true, true_or, or_false, false_or, not_and,
                   if_true, if_false, eq_self_iff_true] <;>
        omega
    · subst hneg
      have hneg2 : ¬ ((0 : Int) < -1) := by omega
      simp only [hneg2, if_false]
      by_cases hcond : ((idx == 0 && line.file_input.isSome) || line.background) = true
      · cases inOk
        · simp only [hcond, if_true, Bool.false_eq_true, if_false]
          refine ⟨fun hpp => ⟨?_, ?_⟩, fun hx => ⟨?_, ?_, ?_, ?_⟩⟩ <;>
            simp only [List.foldl, applyFdOp, List.append_nil, List.nil_append,
                   List.cons_append, List.singleton_append] <;>
            simp only [List.mem_cons, List.mem_filter, List.mem_append,
                   List.mem_singleton, List.not_mem_nil, bne_iff_ne, ne_eq,
                   decide_eq_true_eq, Bool.and_eq_true, not_or,
                   not_true, not_false_iff, and_true, true_and, and_false,
                   false_and, or_true, true_or, or_false, false_or, not_and,
                   if_true, if_false, eq_self_iff_true] <;>
            omega
        · simp only [hcond, if_true]
          refine ⟨fun hpp => ⟨?_, ?_⟩, fun hx => ⟨?_, ?_, ?_, ?_⟩⟩ <;>
            simp only [List.foldl, applyFdOp, List.append_nil, List.nil_append,
                   List.cons_append, List.singleton_append, if_true] <;>
            simp only [List.mem_cons, List.mem_filter, List.mem_append,
                   List.mem_singleton, List.not_mem_nil, bne_iff_ne, ne_eq,
                   decide_eq_true_eq, Bool.and_eq_true, not_or,
                   not_true, not_false_iff, and_true, true_and, and_false,
                   false_and, or_true, true_or, or_false, false_or, not_and,
                   if_true, if_false, eq_self_iff_true] <;>
            omega
      · simp only [Bool.not_eq_true] at hcond
        simp only [hcond, Bool.false_eq_true, if_false]
        refine ⟨fun hpp => ⟨?_, ?_⟩, fun hx => ⟨?_, ?_, ?_, ?_⟩⟩ <;>
          simp only [List.foldl, applyFdOp, List.append_nil, List.nil_append,
                   List.cons_append, List.singleton_append] <;>
          simp only [List.mem_cons, List.mem_filter, List.mem_append,
                   List.mem_singleton, List.not_mem_nil, bne_iff_ne, ne_eq,
                   decide_eq_true_eq, Bool.and_eq_true, not_or,
                   not_true, not_false_iff, and_true, true_and, and_false,
                   false_and, or_true, true_or, or_false, false_or, not_and,
                   if_true, if_false, eq_self_iff_true] <;>
          omega

theorem pipe_fd_closure_amended_witness :
    (4 : Int) ∉ childFdsAtExec (Line.mk [⟨["ls"]⟩, ⟨["wc"]⟩] false none none false)
        0 (-1) 3 4 5 true 6 true
    ∧ (3 : Int) ∈ childFdsAtExec (Line.mk [⟨["ls"]⟩, ⟨["wc"]⟩] false none none false)
        0 (-1) 3 4 5 true 6 true
    ∧ (4 : Int) ∉ parentFdsAfter (Line.mk [⟨["ls"]⟩, ⟨["wc"]⟩] false none none false)
        0 (-1) 3 4
    ∧ (3 : Int) ∈ parentFdsAfter (Line.mk [⟨["ls"]⟩, ⟨["wc"]⟩] false none none false)
        0 (-1) 3 4
    ∧ (7 : Int) ∉ childFdsAtExec (Line.mk [⟨["ls"]⟩, ⟨["wc"]⟩] false none none false)
        1 7 3 4 5 true 6 true
    ∧ (7 : Int) ∉ parentFdsAfter (Line.mk [⟨["ls"]⟩, ⟨["wc"]⟩] false none none false)
        1 7 3 4 := by
  have h0 := pipe_fd_closure_amended (Line.mk [⟨["ls"]⟩, ⟨["wc"]⟩] false none none false)
      0 (-1) 3 4 5 6 true true (by omega) (by omega) (by omega) (by omega)
      (by omega) (by omega) (by omega) (by omega)
  have h1 := pipe_fd_closure_amended (Line.mk [⟨["ls"]⟩, ⟨["wc"]⟩] false none none false)
      1 7 3 4 5 6 true true (by omega) (by omega) (by omega) (by omega)
      (by omega) (by omega) (by omega) (by omega)
  obtain ⟨hA, hB, hC, hD⟩ := h0.2 (by decide)
  obtain ⟨hE, hF⟩ := h1.1 (by decide)
  exact ⟨hA, hB, hC, hD, hE, hF⟩

end Fish
